import Mathlib

/-!
Verification of core behaviors of the RAMS registration system:
the configuration merger (`uber/config.py`) and the API-token
controller (`uber/site_sections/api.py`), shallowly embedded in Lean.

Datetimes that are only compared (price-bump dates, deadlines, the
current time) are modelled as integers on a single global timeline;
datetimes whose calendar fields matter (`make_dates` parsing) are
modelled as explicit year/month/day/hour/minute records.
-/

namespace Rams

/-! ## Generic character-list utilities

Python string primitives (`str.split`, `str.rsplit`, `'_'.join`,
`str.startswith`, `str.endswith`, `in`) are modelled over the
underlying character lists.
-/

/-- `splitCh sep l` is Python `l.split(sep)` for a single-character
separator: the list of (possibly empty) chunks between occurrences of
`sep`.  Always returns a non-empty list. -/
def splitCh (sep : Char) : List Char → List (List Char)
  | [] => [[]]
  | ch :: rest =>
    if ch = sep then [] :: splitCh sep rest
    else
      match splitCh sep rest with
      | [] => [[ch]]
      | p :: ps => (ch :: p) :: ps

/-- `joinCh sep parts` is Python `sep.join(parts)` for a
single-character separator. -/
def joinCh (sep : Char) : List (List Char) → List Char
  | [] => []
  | [p] => p
  | p :: ps => p ++ sep :: joinCh sep ps

/-- First chunk of a `sep`-split, i.e. Python `s.split(sep)[0]`. -/
def firstComp (sep : Char) (l : List Char) : List Char :=
  (splitCh sep l).headD []

/-- Python `s.split(sep, 1)[1]`: everything after the first `sep`,
or `none` (an `IndexError`) when `sep` does not occur. -/
def splitOnceTail (sep : Char) (l : List Char) : Option (List Char) :=
  match splitCh sep l with
  | [] => none
  | [_] => none
  | _ :: rest => some (joinCh sep rest)

/-- Python `s.rsplit(sep, 1)[0]`: everything before the last `sep`,
or the whole string when `sep` does not occur. -/
def rsplitInit (sep : Char) (l : List Char) : List Char :=
  let xs := splitCh sep l
  if xs.length ≤ 1 then l else joinCh sep xs.dropLast

/-- Python `sep.join(s.split(sep)[1:-1])`. -/
def joinMiddle (sep : Char) (l : List Char) : List Char :=
  joinCh sep (((splitCh sep l).drop 1).dropLast)

/-! ## Attendee badge pricing (`Config.get_attendee_price`)

`c.PRICE_BUMPS` maps dates to prices and `c.PRICE_LIMITS` maps
attendance caps to prices; both come from the `[badge_prices]`
section.  Dates are instants on the global integer timeline. -/

/-- Python `sorted` on `dict.items()` pairs of comparables:
lexicographic order on the pairs. -/
def pairLe (a b : Int × Int) : Prop :=
  a.1 < b.1 ∨ (a.1 = b.1 ∧ a.2 ≤ b.2)

instance : DecidableRel pairLe := fun a b => by
  unfold pairLe; infer_instance

instance : IsTotal (Int × Int) pairLe where
  total a b := by
    rcases lt_trichotomy a.1 b.1 with h | h | h
    · exact Or.inl (Or.inl h)
    · rcases le_total a.2 b.2 with h2 | h2
      · exact Or.inl (Or.inr ⟨h, h2⟩)
      · exact Or.inr (Or.inr ⟨h.symm, h2⟩)
    · exact Or.inr (Or.inl h)

instance : IsTrans (Int × Int) pairLe where
  trans a b c hab hbc := by
    rcases hab with h | ⟨he, h2⟩
    · rcases hbc with h' | ⟨he', _⟩
      · exact Or.inl (h.trans h')
      · exact Or.inl (he' ▸ h)
    · rcases hbc with h' | ⟨he', h2'⟩
      · exact Or.inl (he ▸ h')
      · exact Or.inr ⟨he.trans he', h2.trans h2'⟩

/-- `sorted(d.items())` for an int-keyed, int-valued dict. -/
def sortPairs (l : List (Int × Int)) : List (Int × Int) :=
  List.insertionSort pairLe l

/-- The configuration inputs that `get_attendee_price` reads.
`BADGES_SOLD` is the request-cached database count. -/
structure PriceConfig where
  INITIAL_ATTENDEE : Int
  PRICE_BUMPS_ENABLED : Bool
  PRICE_BUMPS : List (Int × Int)
  PRICE_LIMITS : List (Int × Int)
  HARDCORE_OPTIMIZATIONS_ENABLED : Bool
  EPOCH : Int
  BADGES_SOLD : Int
deriving DecidableEq, Repr

/-- One iteration of the price-bump loop:
`if (dt or sa.localized_now()) >= day: price = bumped_price`. -/
def bumpStep (t : Int) (price : Int) (x : Int × Int) : Int :=
  if t ≥ x.1 then x.2 else price

/-- One iteration of the price-limit loop:
`if badges_sold >= badge_cap and bumped_price > price: price = bumped_price`. -/
def limitStep (sold : Int) (price : Int) (x : Int × Int) : Int :=
  if sold ≥ x.1 ∧ x.2 > price then x.2 else price

/-- `Config.get_attendee_price(dt)`.  `dt` is the optional explicit
datetime argument; `now` is the value of `sa.localized_now()`. -/
def get_attendee_price (c : PriceConfig) (dt : Option Int) (now : Int) : Int :=
  let price := c.INITIAL_ATTENDEE
  if c.PRICE_BUMPS_ENABLED then
    let price := (sortPairs c.PRICE_BUMPS).foldl (bumpStep (dt.getD now)) price
    if dt = none ∧ ¬c.HARDCORE_OPTIMIZATIONS_ENABLED ∧ now < c.EPOCH then
      (sortPairs c.PRICE_LIMITS).foldl (limitStep c.BADGES_SOLD) price
    else price
  else price

/-- Modelled from the spec: "date-keyed price bumps (sorted ascending,
last applicable bump wins)" — the price of the last bump, in ascending
date order, whose date is at or before `t`. -/
def lastApplicableBump (bumps : List (Int × Int)) (t : Int) : Option Int :=
  (((sortPairs bumps).filter (fun x => decide (x.1 ≤ t))).getLast?).map Prod.snd

/-- Modelled from the spec: price after the bump stage — the last
applicable bump, or the base price when no bump applies. -/
def specBumpedPrice (c : PriceConfig) (t : Int) : Int :=
  (lastApplicableBump c.PRICE_BUMPS t).getD c.INITIAL_ATTENDEE

/-- Modelled from the spec: the prices of the attendance-count-keyed
limits whose cap has been reached. -/
def applicableLimitPrices (limits : List (Int × Int)) (sold : Int) : List Int :=
  (sortPairs limits).filterMap (fun x => if sold ≥ x.1 then some x.2 else none)

/-- Concrete configuration refuting monotonicity of
`get_attendee_price` in the current time: the second price bump
lowers the price. -/
def cexPriceConfig : PriceConfig :=
  { INITIAL_ATTENDEE := 50
    PRICE_BUMPS_ENABLED := true
    PRICE_BUMPS := [(0, 100), (10, 40)]
    PRICE_LIMITS := []
    HARDCORE_OPTIMIZATIONS_ENABLED := true
    EPOCH := 1000
    BADGES_SOLD := 0 }

/-! ## Date parsing (`_Overridable.make_dates`)

`make_dates` parses each `[dates]` value with
`datetime.strptime(val, '%Y-%m-%d %H')` when the value contains a
space and `datetime.strptime(val + ' 23:59', '%Y-%m-%d %H:%M')`
otherwise, then localizes the result to `EVENT_TIMEZONE`.  The
CPython `strptime` field patterns are reproduced: `%Y` is exactly
four digits; `%m`, `%d`, `%H`, `%M` are one or two digits within
their calendar ranges; the `datetime` constructor additionally
validates the day against the month length. -/

/-- Numeric value of a digit string. -/
def digitsVal (l : List Char) : Nat :=
  l.foldl (fun a ch => a * 10 + (ch.toNat - 48)) 0

/-- Whether every character is an ASCII digit. -/
def allDigits (l : List Char) : Bool :=
  l.all (fun ch => ch.isDigit)

/-- `strptime` `%Y` field: exactly four digits. -/
def parseY (l : List Char) : Option Nat :=
  if l.length = 4 ∧ allDigits l then some (digitsVal l) else none

/-- `strptime` `%m`/`%d`-style field: one or two digits, value in
`1..hi`. -/
def parseLoHi (hi : Nat) (l : List Char) : Option Nat :=
  if (l.length = 1 ∨ l.length = 2) ∧ allDigits l
      ∧ 1 ≤ digitsVal l ∧ digitsVal l ≤ hi then
    some (digitsVal l)
  else none

/-- `strptime` `%H`/`%M`-style field: one or two digits, value at
most `hi`. -/
def parseZeroHi (hi : Nat) (l : List Char) : Option Nat :=
  if (l.length = 1 ∨ l.length = 2) ∧ allDigits l ∧ digitsVal l ≤ hi then
    some (digitsVal l)
  else none

/-- Gregorian leap-year rule used by `datetime`. -/
def isLeap (y : Nat) : Bool :=
  y % 4 = 0 ∧ (y % 100 ≠ 0 ∨ y % 400 = 0)

/-- Days in a month, as validated by the `datetime` constructor. -/
def daysInMonth (y m : Nat) : Nat :=
  if m = 2 then (if isLeap y then 29 else 28)
  else if m = 4 ∨ m = 6 ∨ m = 9 ∨ m = 11 then 30
  else 31

/-- The `%Y-%m-%d` part of both `make_dates` formats, including the
`datetime` constructor's day-of-month and minimum-year validation. -/
def strptimeDatePart (l : List Char) : Option (Nat × Nat × Nat) :=
  match splitCh '-' l with
  | [ys, ms, ds] =>
    match parseY ys, parseLoHi 12 ms, parseLoHi 31 ds with
    | some y, some m, some d =>
      if 1 ≤ y ∧ d ≤ daysInMonth y m then some (y, m, d) else none
    | _, _, _ => none
  | _ => none

/-- A naive (timezone-free) datetime at minute granularity. -/
structure NaiveDT where
  year : Nat
  month : Nat
  day : Nat
  hour : Nat
  minute : Nat
deriving DecidableEq, Repr

/-- `datetime.strptime(s, '%Y-%m-%d %H')`. -/
def strptime_Ymd_H (s : String) : Option NaiveDT :=
  match splitCh ' ' s.data with
  | [dp, hp] =>
    match strptimeDatePart dp, parseZeroHi 23 hp with
    | some (y, m, d), some hh => some ⟨y, m, d, hh, 0⟩
    | _, _ => none
  | _ => none

/-- `datetime.strptime(s, '%Y-%m-%d %H:%M')`. -/
def strptime_Ymd_HM (s : String) : Option NaiveDT :=
  match splitCh ' ' s.data with
  | [dp, hmp] =>
    match splitCh ':' hmp with
    | [hp, mp] =>
      match strptimeDatePart dp, parseZeroHi 23 hp, parseZeroHi 59 mp with
      | some (y, m, d), some hh, some mm => some ⟨y, m, d, hh, mm⟩
      | _, _, _ => none
    | _ => none
  | _ => none

/-- A timezone-aware datetime: `pytz` localization only tags the
naive datetime with the zone here. -/
structure TZDateTime where
  naive : NaiveDT
  tz : String
deriving DecidableEq, Repr

/-- `self.EVENT_TIMEZONE.localize(dt)`. -/
def localize (tz : String) (n : NaiveDT) : TZDateTime :=
  ⟨n, tz⟩

/-- The per-value computation of the `make_dates` loop body: `None`
for a falsy value, the date+hour format when the value contains a
space, the date-only format padded with `' 23:59'` otherwise.
`Except.error` is `strptime`'s `ValueError`. -/
def make_date_val (EVENT_TIMEZONE : String) (val : String) :
    Except Unit (Option TZDateTime) :=
  if val = "" then .ok none
  else if val.data.contains ' ' then
    match strptime_Ymd_H val with
    | some n => .ok (some (localize EVENT_TIMEZONE n))
    | none => .error ()
  else
    match strptime_Ymd_HM (val ++ " 23:59") with
    | some n => .ok (some (localize EVENT_TIMEZONE n))
    | none => .error ()

/-- `_Overridable.make_dates`: fold the loop body over a `[dates]`
section, recording each parsed option (the `setattr`) and the
non-`None` ones (the `DATES` dict). -/
def make_dates (EVENT_TIMEZONE : String)
    (section_ : List (String × String)) :
    Except Unit (List (String × Option TZDateTime)) :=
  section_.foldlM
    (fun acc p => do
      let dt ← make_date_val EVENT_TIMEZONE p.2
      pure (acc ++ [(p.1, dt)]))
    []

/-! ## Enum values (`_Overridable.create_enum_val`)

`int(sha512(name.upper().encode()).hexdigest()[:7], 16)`.  The SHA-512
hex digest itself is an external library function and is abstracted as
a function parameter; `hexdigest` output is lowercase hexadecimal. -/

/-- The characters Python `int(s, 16)` accepts as digits, with their
values. -/
def hexDigits : List (Char × Nat) :=
  [('0', 0), ('1', 1), ('2', 2), ('3', 3), ('4', 4), ('5', 5), ('6', 6),
   ('7', 7), ('8', 8), ('9', 9),
   ('a', 10), ('b', 11), ('c', 12), ('d', 13), ('e', 14), ('f', 15),
   ('A', 10), ('B', 11), ('C', 12), ('D', 13), ('E', 14), ('F', 15)]

/-- Hexadecimal value of one character, when it is a hex digit. -/
def hexDigitVal (ch : Char) : Option Nat :=
  (hexDigits.find? (fun p => p.1 = ch)).map Prod.snd

/-- Python `int(s, 16)` on a plain hexadecimal literal: fails on an
empty string or a non-hex character. -/
def hexToNat (l : List Char) : Option Nat :=
  if l = [] then none
  else
    l.foldlM (fun a ch => (hexDigitVal ch).map (fun v => a * 16 + v)) 0

/-- Python `str.upper()` (ASCII range, which covers config names). -/
def toUpperU (s : String) : String :=
  ⟨s.data.map Char.toUpper⟩

/-- `_Overridable.create_enum_val`, with the SHA-512 hex digest
abstracted as `sha512hex`. -/
def create_enum_val (sha512hex : String → String) (name : String) :
    Option Nat :=
  hexToNat ((sha512hex (toUpperU name)).data.take 7)

/-! ## Dynamic attribute resolution (`Config.__getattr__`)

Attribute access on the global `c` object first finds instance and
class attributes (modelled by the `base` map) and only then runs the
`__getattr__` fallback chain.  The fallback recurses into full
attribute lookups on derived names (`getattr(c, ...)`), so the model
uses an explicit fuel that each nested lookup consumes; exhaustion is
a distinguished error that the claims' hypotheses rule out. -/

/-- A Python value, restricted to the shapes config attributes take.
Datetimes are instants on the global integer timeline. -/
inductive Value where
  | none
  | bool (b : Bool)
  | int (n : Int)
  | str (s : String)
  | date (t : Int)
deriving DecidableEq, Repr

/-- Python truthiness `bool(v)`. -/
def truthy : Value → Bool
  | .none => false
  | .bool b => b
  | .int n => decide (n ≠ 0)
  | .str s => decide (s ≠ "")
  | .date _ => true

/-- The exceptions attribute resolution can raise.  `fuelExhausted`
is the model's recursion bound, not a Python exception. -/
inductive PyErr where
  | attrError (msg : String)
  | indexError
  | typeError
  | valueError
  | fuelExhausted
deriving DecidableEq, Repr

/-- Everything `Config.__getattr__` consults: ordinary attributes of
`c` (`base`), attributes of the `_secret` object, the
`_config['secret']` section (lowercase keys), the current admin's
access set, the database badge count per badge type, and
`sa.localized_now()`. -/
structure ConfigState where
  base : String → Option Value
  secretAttr : String → Option Value
  secretSection : String → Option Value
  adminAccessSet : List Value
  badgeCountByType : Value → Int
  localizedNow : Int

/-- Python `str.lower()` (ASCII range, which covers config names). -/
def toLowerU (s : String) : String :=
  ⟨s.data.map Char.toLower⟩

/-- Python `int(s)` on a string: optional sign followed by digits. -/
def strToInt? (l : List Char) : Option Int :=
  match l with
  | '-' :: rest =>
    if rest ≠ [] ∧ allDigits rest then some (-(digitsVal rest : Int)) else none
  | '+' :: rest =>
    if rest ≠ [] ∧ allDigits rest then some (digitsVal rest : Int) else none
  | _ => if l ≠ [] ∧ allDigits l then some (digitsVal l : Int) else none

/-- Python `int(v)` on a config value, as used by the `_AVAILABLE`
comparison. -/
def toIntV : Value → Except PyErr Int
  | .int n => .ok n
  | .bool b => .ok (if b then 1 else 0)
  | .str s =>
    match strToInt? s.data with
    | some n => .ok n
    | Option.none => .error .valueError
  | .none => .error .typeError
  | .date _ => .error .typeError

/-- Python `getattr(obj, name, None)`: an `AttributeError` becomes
`None`, every other exception propagates. -/
def getattrDefault : Except PyErr Value → Except PyErr Value
  | .ok v => .ok v
  | .error (.attrError _) => .ok .none
  | .error e => .error e

/-- The `BEFORE_`/`AFTER_` arm of `Config.__getattr__`: compare
`sa.localized_now()` with the named date setting; a falsy setting is
`False`; `name.split('_', 1)[1]` raises `IndexError` when there is no
underscore. -/
def beforeAfterArm (st : ConfigState)
    (recur : String → Except PyErr Value) (name : String) :
    Except PyErr Value :=
  match splitOnceTail '_' name.data with
  | Option.none => .error .indexError
  | some sub =>
    match recur ⟨sub⟩ with
    | .error e => .error e
    | .ok dv =>
      if truthy dv = false then .ok (.bool false)
      else if "BEFORE_".data.isPrefixOf name.data then
        match dv with
        | .date d => .ok (.bool (decide (st.localizedNow < d)))
        | _ => .error .typeError
      else
        match dv with
        | .date d => .ok (.bool (decide (st.localizedNow > d)))
        | _ => .error .typeError

/-- The `HAS_<X>_ACCESS` arm: membership of the named value in the
current admin's access set. -/
def hasAccessArm (st : ConfigState)
    (recur : String → Except PyErr Value) (name : String) :
    Except PyErr Value :=
  match recur ⟨joinMiddle '_' name.data⟩ with
  | .error e => .error e
  | .ok v => .ok (.bool (st.adminAccessSet.contains v))

/-- The `<X>_COUNT` arm: a database badge count for the badge type
named `<X>`, `None` when that badge type is falsy or undefined. -/
def countArm (st : ConfigState)
    (recur : String → Except PyErr Value) (name : String) :
    Except PyErr Value :=
  match getattrDefault (recur ⟨rsplitInit '_' name.data⟩) with
  | .error e => .error e
  | .ok bt =>
    if truthy bt then .ok (.int (st.badgeCountByType bt)) else .ok .none

/-- The `<X>_AVAILABLE` arm: unlimited without a `<X>_STOCK` setting,
unavailable without a count, otherwise a strict count-below-stock
comparison. -/
def availableArm (st : ConfigState)
    (recur : String → Except PyErr Value) (name : String) :
    Except PyErr Value :=
  match getattrDefault (recur (⟨rsplitInit '_' name.data⟩ ++ "_STOCK")) with
  | .error e => .error e
  | .ok stock =>
    if stock = .none then .ok (.bool true)
    else
      match getattrDefault (recur (⟨rsplitInit '_' name.data⟩ ++ "_COUNT")) with
      | .error e => .error e
      | .ok cnt =>
        if cnt = .none then .ok (.bool false)
        else
          match toIntV cnt with
          | .error e => .error e
          | .ok ci =>
            match toIntV stock with
            | .error e => .error e
            | .ok si => .ok (.bool (decide (ci < si)))

/-- The final fallbacks: the `_secret` object, then the
`[secret]` config section, then `AttributeError`. -/
def secretArm (st : ConfigState) (name : String) : Except PyErr Value :=
  match st.secretAttr name with
  | some v => .ok v
  | Option.none =>
    match st.secretSection (toLowerU name) with
    | some v => .ok v
    | Option.none => .error (.attrError ("no such attribute " ++ name))

/-- The body of `Config.__getattr__`, with the nested full attribute
lookups abstracted as `recur`. -/
def chainStep (st : ConfigState) (recur : String → Except PyErr Value)
    (name : String) : Except PyErr Value :=
  if firstComp '_' name.data = "BEFORE".data
      ∨ firstComp '_' name.data = "AFTER".data then
    beforeAfterArm st recur name
  else if "HAS_".data.isPrefixOf name.data
      ∧ "_ACCESS".data.isSuffixOf name.data then
    hasAccessArm st recur name
  else if "_COUNT".data.isSuffixOf name.data then
    countArm st recur name
  else if "_AVAILABLE".data.isSuffixOf name.data then
    availableArm st recur name
  else
    secretArm st name

/-- Full attribute lookup `getattr(c, name)` with explicit fuel:
ordinary attributes first, then the `__getattr__` chain. -/
def cgetFuel (st : ConfigState) : Nat → String → Except PyErr Value
  | 0, _ => .error .fuelExhausted
  | f + 1, name =>
    match st.base name with
    | some v => .ok v
    | Option.none => chainStep st (cgetFuel st f) name

/-- Full attribute lookup `getattr(c, name)`.  Every nested lookup is
on a strictly shorter name, so `name.length + 1` levels of fuel are
exhausted only on lookups that would not terminate. -/
def cget (st : ConfigState) (name : String) : Except PyErr Value :=
  cgetFuel st (name.length + 1) name

/-- A state with no attributes at all. -/
def emptyState : ConfigState :=
  { base := fun _ => Option.none
    secretAttr := fun _ => Option.none
    secretSection := fun _ => Option.none
    adminAccessSet := []
    badgeCountByType := fun _ => 0
    localizedNow := 0 }

/-- A small concrete state: a badge type `FOO` with a stock of 5 and
a database count of 3, and a `DEADLINE` equal to the current time. -/
def demoState : ConfigState :=
  { base := fun n =>
      if n = "FOO_STOCK" then some (.int 5)
      else if n = "FOO" then some (.int 1)
      else if n = "DEADLINE" then some (.date 100)
      else Option.none
    secretAttr := fun _ => Option.none
    secretSection := fun _ => Option.none
    adminAccessSet := []
    badgeCountByType := fun _ => 3
    localizedNow := 100 }

/-! ## API token controller (`site_sections/api.py`)

The database is a list of token records; the scoped session's
commit/rollback discipline appears as whether the returned list
differs from the input. -/

/-- An `ApiToken` row: an opaque credential owned by an admin
account, with an issued timestamp and an optional revocation
timestamp. -/
structure ApiToken where
  id : Nat
  admin_account_id : Nat
  issued_time : Int
  revoked_time : Option Int
deriving DecidableEq, Repr

/-- The slice of an `AdminAccount` row the controller reads. -/
structure AdminAccount where
  id : Nat
  access_ints : List Int
deriving DecidableEq, Repr

/-- `ORDER BY issued_time`. -/
def issuedLe (a b : ApiToken) : Prop :=
  a.issued_time ≤ b.issued_time

instance : DecidableRel issuedLe := fun a b => by
  unfold issuedLe; infer_instance

/-- `Root.index`: list tokens, restricted to the caller's own unless
the caller holds `c.ADMIN`, excluding revoked tokens unless
`show_revoked`, ordered by issue time. -/
def indexTokens (db : List ApiToken) (admin : AdminAccount) (ADMIN : Int)
    (show_revoked : Bool) : List ApiToken :=
  let q1 :=
    if ADMIN ∈ admin.access_ints then db
    else db.filter (fun t => decide (t.admin_account_id = admin.id))
  let q2 :=
    if show_revoked then q1
    else q1.filter (fun t => decide (t.revoked_time = Option.none))
  List.insertionSort issuedLe q2

/-- The JSON-ish value `Root.create_api_token` returns. -/
inductive AjaxResult where
  | result (id : Nat)
  | error (msg : String)
deriving DecidableEq, Repr

/-- `Root.create_api_token`: on POST, build the token for the session
account, validate with `check`; an empty message commits the insert
and returns the id, a non-empty message rolls back and returns it. -/
def create_api_token (method : String) (account_id : Nat)
    (tok : ApiToken) (check : ApiToken → String) (db : List ApiToken) :
    AjaxResult × List ApiToken :=
  if method = "POST" then
    let api_token := { tok with admin_account_id := account_id }
    let message := check api_token
    if message = "" then (.result api_token.id, db ++ [api_token])
    else (.error message, db)
  else (.error "POST required", db)

/-- Where `Root.revoke_api_token` ends up: `HTTPRedirect('index')`
without an id or on a non-POST request, a success redirect otherwise;
`not_found` is the ORM error for an unknown id. -/
inductive RevokeResult where
  | redirect_index
  | redirect_success
  | not_found
deriving DecidableEq, Repr

/-- `Root.revoke_api_token`: sets `revoked_time` to the current UTC
time on the fetched token; never deletes. -/
def revoke_api_token (method : String) (id : Option Nat) (now : Int)
    (db : List ApiToken) : RevokeResult × List ApiToken :=
  match id with
  | Option.none => (.redirect_index, db)
  | some i =>
    if method = "POST" then
      match db.find? (fun t => decide (t.id = i)) with
      | Option.none => (.not_found, db)
      | some _ =>
        (.redirect_success,
          db.map (fun t =>
            if t.id = i then { t with revoked_time := some now } else t))
    else (.redirect_index, db)

/-- Decidable equality for `Except` results, used to evaluate the
model on concrete inputs. -/
instance instDecEqExcept {e a : Type} [DecidableEq e] [DecidableEq a] :
    DecidableEq (Except e a) := fun x y =>
  match x, y with
  | .ok v, .ok w =>
    if h : v = w then isTrue (by rw [h])
    else isFalse (fun hc => h (Except.ok.inj hc))
  | .error u, .error w =>
    if h : u = w then isTrue (by rw [h])
    else isFalse (fun hc => h (Except.error.inj hc))
  | .ok _, .error _ => isFalse (fun hc => Except.noConfusion hc)
  | .error _, .ok _ => isFalse (fun hc => Except.noConfusion hc)

/-! ## Splitting and joining lemmas -/

theorem splitCh_ne_nil (sep : Char) (l : List Char) : splitCh sep l ≠ [] := by
  induction l with
  | nil => simp [splitCh]
  | cons ch rest ih =>
    unfold splitCh
    by_cases h : ch = sep
    · simp [h]
    · simp only [if_neg h]
      cases hs : splitCh sep rest with
      | nil => simp
      | cons p ps => simp

theorem joinCh_cons_cons (sep : Char) (p q : List Char)
    (ps : List (List Char)) :
    joinCh sep (p :: q :: ps) = p ++ sep :: joinCh sep (q :: ps) := by
  rfl

theorem splitCh_cons (sep ch : Char) (rest : List Char) :
    splitCh sep (ch :: rest) =
      if ch = sep then [] :: splitCh sep rest
      else
        match splitCh sep rest with
        | [] => [[ch]]
        | p :: ps => (ch :: p) :: ps := by
  rfl

theorem joinCh_splitCh (sep : Char) (l : List Char) :
    joinCh sep (splitCh sep l) = l := by
  induction l with
  | nil => rfl
  | cons ch rest ih =>
    rw [splitCh_cons]
    by_cases h : ch = sep
    · simp only [if_pos h]
      cases hs : splitCh sep rest with
      | nil => exact absurd hs (splitCh_ne_nil sep rest)
      | cons p ps =>
        rw [hs] at ih
        rw [joinCh_cons_cons]
        simp [ih, h]
    · simp only [if_neg h]
      cases hs : splitCh sep rest with
      | nil => exact absurd hs (splitCh_ne_nil sep rest)
      | cons p ps =>
        rw [hs] at ih
        cases ps with
        | nil => simpa [joinCh] using ih
        | cons q qs =>
          rw [joinCh_cons_cons] at ih ⊢
          simpa using ih

theorem splitCh_append (sep : Char) (a b : List Char) :
    splitCh sep (a ++ sep :: b) = splitCh sep a ++ splitCh sep b := by
  induction a with
  | nil => simp [splitCh]
  | cons ch a ih =>
    simp only [List.cons_append, splitCh_cons, ih]
    by_cases h : ch = sep
    · simp [h]
    · simp only [if_neg h]
      cases hs : splitCh sep a with
      | nil => exact absurd hs (splitCh_ne_nil sep a)
      | cons p ps => simp

theorem splitCh_no_sep (sep : Char) (l : List Char) (h : sep ∉ l) :
    splitCh sep l = [l] := by
  induction l with
  | nil => rfl
  | cons ch rest ih =>
    rw [splitCh_cons]
    have hne : ch ≠ sep := fun hc => h (hc ▸ List.mem_cons_self ch rest)
    simp only [if_neg hne]
    rw [ih (fun hm => h (List.mem_cons_of_mem ch hm))]

theorem firstComp_append (sep : Char) (a b : List Char) :
    firstComp sep (a ++ sep :: b) = firstComp sep a := by
  unfold firstComp
  rw [splitCh_append]
  cases hs : splitCh sep a with
  | nil => exact absurd hs (splitCh_ne_nil sep a)
  | cons p ps => simp

theorem splitOnceTail_append (sep : Char) (a b : List Char)
    (h : sep ∉ a) : splitOnceTail sep (a ++ sep :: b) = some b := by
  unfold splitOnceTail
  rw [splitCh_append, splitCh_no_sep sep a h]
  simp only [List.singleton_append]
  cases hs : splitCh sep b with
  | nil => exact absurd hs (splitCh_ne_nil sep b)
  | cons p ps =>
    have := joinCh_splitCh sep b
    rw [hs] at this
    simp [this]

theorem rsplitInit_append (sep : Char) (a s : List Char)
    (h : sep ∉ s) : rsplitInit sep (a ++ sep :: s) = a := by
  unfold rsplitInit
  rw [splitCh_append, splitCh_no_sep sep s h]
  cases hs : splitCh sep a with
  | nil => exact absurd hs (splitCh_ne_nil sep a)
  | cons p ps =>
    have hlen : ¬ (p :: ps ++ [s]).length ≤ 1 := by
      simp [List.length_append]
    simp only [if_neg hlen, List.dropLast_concat]
    have := joinCh_splitCh sep a
    rw [hs] at this
    exact this

/-- A suffix of `l ++ s` that is no longer than `s` is a suffix of
`s`. -/
theorem suffix_of_append_right {α : Type} (t l s : List α)
    (ht : t <:+ l ++ s) (hlen : t.length ≤ s.length) : t <:+ s := by
  obtain ⟨u, hu⟩ := ht
  refine ⟨u.drop l.length, ?_⟩
  have hulen : l.length ≤ u.length := by
    have := congrArg List.length hu
    simp only [List.length_append] at this
    omega
  have hdrop := congrArg (List.drop l.length) hu
  rw [List.drop_append_of_le_length hulen] at hdrop
  rw [hdrop, List.drop_left]

/-! ## Fuel monotonicity of attribute resolution

Once a lookup succeeds (or fails with a genuine Python exception)
at some fuel, any larger fuel gives the same result. -/

theorem getattrDefault_fuelExhausted (r : Except PyErr Value)
    (h : r = .error .fuelExhausted) :
    getattrDefault r = .error .fuelExhausted := by
  rw [h]; rfl

theorem beforeAfterArm_mono (st : ConfigState)
    (r₁ r₂ : String → Except PyErr Value) (name : String)
    (h : ∀ s, r₁ s ≠ .error .fuelExhausted → r₂ s = r₁ s)
    (hne : beforeAfterArm st r₁ name ≠ .error .fuelExhausted) :
    beforeAfterArm st r₂ name = beforeAfterArm st r₁ name := by
  unfold beforeAfterArm at hne ⊢
  cases hsub : splitOnceTail '_' name.data with
  | none => rfl
  | some sub =>
    rw [hsub] at hne
    dsimp only at hne ⊢
    cases hr : r₁ ⟨sub⟩ with
    | error e =>
      by_cases he : e = PyErr.fuelExhausted
      · subst he
        rw [hr] at hne
        dsimp only at hne
        exact absurd rfl hne
      · rw [h ⟨sub⟩ (by rw [hr]; simp [he]), hr]
    | ok v => rw [h ⟨sub⟩ (by rw [hr]; simp), hr]

theorem hasAccessArm_mono (st : ConfigState)
    (r₁ r₂ : String → Except PyErr Value) (name : String)
    (h : ∀ s, r₁ s ≠ .error .fuelExhausted → r₂ s = r₁ s)
    (hne : hasAccessArm st r₁ name ≠ .error .fuelExhausted) :
    hasAccessArm st r₂ name = hasAccessArm st r₁ name := by
  unfold hasAccessArm at hne ⊢
  cases hr : r₁ ⟨joinMiddle '_' name.data⟩ with
  | error e =>
    by_cases he : e = PyErr.fuelExhausted
    · subst he
      rw [hr] at hne
      exact absurd rfl hne
    · rw [h _ (by rw [hr]; simp [he]), hr]
  | ok v => rw [h _ (by rw [hr]; simp), hr]

theorem countArm_mono (st : ConfigState)
    (r₁ r₂ : String → Except PyErr Value) (name : String)
    (h : ∀ s, r₁ s ≠ .error .fuelExhausted → r₂ s = r₁ s)
    (hne : countArm st r₁ name ≠ .error .fuelExhausted) :
    countArm st r₂ name = countArm st r₁ name := by
  unfold countArm at hne ⊢
  cases hr : r₁ ⟨rsplitInit '_' name.data⟩ with
  | error e =>
    by_cases he : e = PyErr.fuelExhausted
    · subst he
      rw [getattrDefault_fuelExhausted _ hr] at hne
      dsimp only at hne
      exact absurd rfl hne
    · rw [h _ (by rw [hr]; simp [he]), hr]
  | ok v => rw [h _ (by rw [hr]; simp), hr]

theorem availableArm_mono (st : ConfigState)
    (r₁ r₂ : String → Except PyErr Value) (name : String)
    (h : ∀ s, r₁ s ≠ .error .fuelExhausted → r₂ s = r₁ s)
    (hne : availableArm st r₁ name ≠ .error .fuelExhausted) :
    availableArm st r₂ name = availableArm st r₁ name := by
  unfold availableArm at hne ⊢
  cases hr : r₁ (String.mk (rsplitInit '_' name.data) ++ "_STOCK") with
  | error e =>
    by_cases he : e = PyErr.fuelExhausted
    · subst he
      rw [getattrDefault_fuelExhausted _ hr] at hne
      dsimp only at hne
      exact absurd rfl hne
    · rw [h _ (by rw [hr]; simp [he]), hr]
      cases e <;> rfl
  | ok stock =>
    rw [hr] at hne
    dsimp only [getattrDefault] at hne
    rw [h _ (by rw [hr]; simp), hr]
    dsimp only [getattrDefault]
    by_cases hst : stock = Value.none
    · simp [hst]
    · rw [if_neg hst] at hne
      rw [if_neg hst, if_neg hst]
      cases hr2 : r₁ (String.mk (rsplitInit '_' name.data) ++ "_COUNT") with
      | error e =>
        by_cases he : e = PyErr.fuelExhausted
        · subst he
          rw [hr2] at hne
          dsimp only at hne
          exact absurd rfl hne
        · rw [h _ (by rw [hr2]; simp [he]), hr2]
      | ok cnt => rw [h _ (by rw [hr2]; simp), hr2]

theorem chainStep_mono (st : ConfigState)
    (r₁ r₂ : String → Except PyErr Value) (name : String)
    (h : ∀ s, r₁ s ≠ .error .fuelExhausted → r₂ s = r₁ s)
    (hne : chainStep st r₁ name ≠ .error .fuelExhausted) :
    chainStep st r₂ name = chainStep st r₁ name := by
  unfold chainStep at hne ⊢
  by_cases h1 : firstComp '_' name.data = "BEFORE".data
      ∨ firstComp '_' name.data = "AFTER".data
  · rw [if_pos h1] at hne
    rw [if_pos h1, if_pos h1]
    exact beforeAfterArm_mono st r₁ r₂ name h hne
  · rw [if_neg h1] at hne
    rw [if_neg h1, if_neg h1]
    by_cases h2 : "HAS_".data.isPrefixOf name.data = true
        ∧ "_ACCESS".data.isSuffixOf name.data = true
    · rw [if_pos h2] at hne
      rw [if_pos h2, if_pos h2]
      exact hasAccessArm_mono st r₁ r₂ name h hne
    · rw [if_neg h2] at hne
      rw [if_neg h2, if_neg h2]
      by_cases h3 : "_COUNT".data.isSuffixOf name.data = true
      · rw [if_pos h3] at hne
        rw [if_pos h3, if_pos h3]
        exact countArm_mono st r₁ r₂ name h hne
      · rw [if_neg h3] at hne
        rw [if_neg h3, if_neg h3]
        by_cases h4 : "_AVAILABLE".data.isSuffixOf name.data = true
        · rw [if_pos h4] at hne
          rw [if_pos h4, if_pos h4]
          exact availableArm_mono st r₁ r₂ name h hne
        · rw [if_neg h4, if_neg h4]

theorem cgetFuel_succ (st : ConfigState) (f : Nat) (name : String) :
    cgetFuel st (f + 1) name =
      match st.base name with
      | some v => .ok v
      | Option.none => chainStep st (cgetFuel st f) name := by
  rfl

theorem cgetFuel_mono (st : ConfigState) (f₁ : Nat) :
    ∀ (f₂ : Nat) (name : String), f₁ ≤ f₂ →
      cgetFuel st f₁ name ≠ .error .fuelExhausted →
      cgetFuel st f₂ name = cgetFuel st f₁ name := by
  induction f₁ with
  | zero => intro f₂ name _ hne; exact absurd rfl hne
  | succ f ih =>
    intro f₂ name hle hne
    obtain ⟨f₂', rfl⟩ : ∃ k, f₂ = k + 1 := ⟨f₂ - 1, by omega⟩
    rw [cgetFuel_succ] at hne ⊢
    rw [cgetFuel_succ]
    cases hb : st.base name with
    | some v => rfl
    | none =>
      rw [hb] at hne
      dsimp only at hne ⊢
      exact chainStep_mono st (cgetFuel st f) (cgetFuel st f₂') name
        (fun s hs => ih f₂' s (by omega) hs) hne

/-! ## Pricing lemmas -/

theorem foldl_bumpStep_eq (t : Int) :
    ∀ (l : List (Int × Int)) (a : Int),
      l.foldl (bumpStep t) a =
        (((l.filter (fun x => decide (x.1 ≤ t))).getLast?).map Prod.snd).getD a := by
  intro l
  induction l with
  | nil => intro a; rfl
  | cons x rest ih =>
    intro a
    rw [List.foldl_cons, List.filter_cons]
    by_cases hx : x.1 ≤ t
    · have hb : bumpStep t a x = x.2 := by simp [bumpStep, hx]
      rw [hb, ih, if_pos (by simpa using hx)]
      cases hf : rest.filter (fun x => decide (x.1 ≤ t)) with
      | nil => simp
      | cons y ys =>
        rw [List.getLast?_cons_cons]
        cases hyl : (y :: ys).getLast? with
        | none => exact absurd (List.getLast?_eq_none_iff.mp hyl) (by simp)
        | some z => simp
    · have hb : bumpStep t a x = a := by
        simp only [bumpStep, ge_iff_le, if_neg hx]
      rw [hb, ih, if_neg (by simpa using hx)]

theorem foldl_limitStep_eq (sold : Int) :
    ∀ (l : List (Int × Int)) (a : Int),
      l.foldl (limitStep sold) a =
        (l.filterMap (fun x => if sold ≥ x.1 then some x.2 else none)).foldl
          max a := by
  intro l
  induction l with
  | nil => intro a; rfl
  | cons x rest ih =>
    intro a
    rw [List.foldl_cons, List.filterMap_cons]
    by_cases hx : sold ≥ x.1
    · simp only [if_pos hx]
      rw [List.foldl_cons]
      have hl : limitStep sold a x = max a x.2 := by
        unfold limitStep
        by_cases h2 : x.2 > a
        · rw [if_pos ⟨hx, h2⟩, max_eq_right (le_of_lt h2)]
        · rw [if_neg (fun hc => h2 hc.2), max_eq_left (not_lt.mp h2)]
      rw [hl, ih]
    · have hl : limitStep sold a x = a := by
        unfold limitStep
        rw [if_neg (fun hc => hx hc.1)]
      simp only [if_neg hx]
      rw [hl, ih]

theorem le_foldl_max : ∀ (l : List Int) (a : Int), a ≤ l.foldl max a := by
  intro l
  induction l with
  | nil => intro a; exact le_refl a
  | cons x rest ih =>
    intro a
    rw [List.foldl_cons]
    exact le_trans (le_max_left a x) (ih (max a x))

theorem foldl_max_mono :
    ∀ (l : List Int) (a₁ a₂ : Int), a₁ ≤ a₂ →
      l.foldl max a₁ ≤ l.foldl max a₂ := by
  intro l
  induction l with
  | nil => intro a₁ a₂ h; exact h
  | cons x rest ih =>
    intro a₁ a₂ h
    rw [List.foldl_cons, List.foldl_cons]
    exact ih _ _ (max_le_max h (le_refl x))

theorem foldl_bumpStep_mono :
    ∀ (l : List (Int × Int)) (a₁ a₂ t₁ t₂ : Int),
      a₁ ≤ a₂ → t₁ ≤ t₂ → (∀ x ∈ l, a₁ ≤ x.2) →
      l.Pairwise (fun x y => x.2 ≤ y.2) →
      l.foldl (bumpStep t₁) a₁ ≤ l.foldl (bumpStep t₂) a₂ := by
  intro l
  induction l with
  | nil => intro a₁ a₂ t₁ t₂ h12 _ _ _; exact h12
  | cons x rest ih =>
    intro a₁ a₂ t₁ t₂ h12 ht hall hpw
    rw [List.foldl_cons, List.foldl_cons]
    obtain ⟨hx, hpw'⟩ := List.pairwise_cons.mp hpw
    by_cases h1 : t₁ ≥ x.1
    · have h2 : t₂ ≥ x.1 := le_trans h1 ht
      have e1 : bumpStep t₁ a₁ x = x.2 := by simp [bumpStep, h1]
      have e2 : bumpStep t₂ a₂ x = x.2 := by simp [bumpStep, h2]
      rw [e1, e2]
      exact ih x.2 x.2 t₁ t₂ (le_refl _) ht (fun y hy => hx y hy) hpw'
    · have e1 : bumpStep t₁ a₁ x = a₁ := by
        simp only [bumpStep, ge_iff_le, if_neg (fun hc => h1 hc)]
      rw [e1]
      by_cases h2 : t₂ ≥ x.1
      · have e2 : bumpStep t₂ a₂ x = x.2 := by simp [bumpStep, h2]
        rw [e2]
        exact ih a₁ x.2 t₁ t₂ (hall x (List.mem_cons_self x rest)) ht
          (fun y hy => hall y (List.mem_cons_of_mem x hy)) hpw'
      · have e2 : bumpStep t₂ a₂ x = a₂ := by
          simp only [bumpStep, ge_iff_le, if_neg (fun hc => h2 hc)]
        rw [e2]
        exact ih a₁ a₂ t₁ t₂ h12 ht
          (fun y hy => hall y (List.mem_cons_of_mem x hy)) hpw'

/-- Closed form of `get_attendee_price` in terms of the spec-side
bump and limit descriptions. -/
theorem get_attendee_price_eq (c : PriceConfig) (dt : Option Int)
    (now : Int) :
    get_attendee_price c dt now =
      if c.PRICE_BUMPS_ENABLED then
        if dt = none ∧ ¬c.HARDCORE_OPTIMIZATIONS_ENABLED ∧ now < c.EPOCH then
          (applicableLimitPrices c.PRICE_LIMITS c.BADGES_SOLD).foldl max
            (specBumpedPrice c (dt.getD now))
        else specBumpedPrice c (dt.getD now)
      else c.INITIAL_ATTENDEE := by
  unfold get_attendee_price specBumpedPrice lastApplicableBump
    applicableLimitPrices
  dsimp only
  rw [foldl_bumpStep_eq, foldl_limitStep_eq]

/-! ## Claims C1 and C2: attendee price derivation -/

/-- C2: `get_attendee_price` starts from the base price
`INITIAL_ATTENDEE`; with price bumps enabled the bump stage yields the
last bump (in ascending date order) whose date is at or before the
evaluation instant; the attendance-count price limits change the
result only pre-event with optimizations off; they never lower the
price; and when they apply the result is the maximum of the bump-stage
price and every applicable limit price. -/
theorem get_attendee_price_derivation (c : PriceConfig) (dt : Option Int)
    (now : Int) :
    (c.PRICE_BUMPS_ENABLED = false →
      get_attendee_price c dt now = c.INITIAL_ATTENDEE)
    ∧ (c.PRICE_BUMPS_ENABLED = true →
        specBumpedPrice c (dt.getD now) ≤ get_attendee_price c dt now
      ∧ (get_attendee_price c dt now ≠ specBumpedPrice c (dt.getD now) →
          now < c.EPOCH ∧ c.HARDCORE_OPTIMIZATIONS_ENABLED = false)
      ∧ (dt = none → c.HARDCORE_OPTIMIZATIONS_ENABLED = false →
          now < c.EPOCH →
          get_attendee_price c dt now =
            (applicableLimitPrices c.PRICE_LIMITS c.BADGES_SOLD).foldl max
              (specBumpedPrice c now))
      ∧ ((dt ≠ none ∨ c.HARDCORE_OPTIMIZATIONS_ENABLED = true
            ∨ ¬ now < c.EPOCH) →
          get_attendee_price c dt now = specBumpedPrice c (dt.getD now))) := by
  have he := get_attendee_price_eq c dt now
  constructor
  · intro hb
    rw [he, hb]
    simp
  · intro hb
    rw [he]
    simp only [hb, if_true]
    by_cases hcond : dt = none ∧ ¬c.HARDCORE_OPTIMIZATIONS_ENABLED
        ∧ now < c.EPOCH
    · rw [if_pos hcond]
      obtain ⟨hdt, hhard, hep⟩ := hcond
      refine ⟨le_foldl_max _ _, ?_, ?_, ?_⟩
      · intro _
        exact ⟨hep, by simpa using hhard⟩
      · intro _ _ _
        rw [hdt]
        simp
      · intro hor
        rcases hor with h | h | h
        · exact absurd hdt h
        · exact absurd h hhard
        · exact absurd hep h
    · rw [if_neg hcond]
      refine ⟨le_refl _, fun hne => absurd rfl hne, ?_, fun _ => rfl⟩
      intro hdt hhard hep
      exact absurd ⟨hdt, by simp [hhard], hep⟩ hcond

/-- Witness for C2 at a concrete configuration. -/
theorem get_attendee_price_derivation_witness :
    get_attendee_price cexPriceConfig none 5 =
      specBumpedPrice cexPriceConfig ((none : Option Int).getD 5) :=
  ((get_attendee_price_derivation cexPriceConfig none 5).2 rfl).2.2.2
    (Or.inr (Or.inl rfl))

/-- C1 as stated is false: with a configuration whose later price bump
carries a lower price, advancing the current time lowers the result of
`get_attendee_price`. -/
theorem get_attendee_price_not_time_mono :
    (5 : Int) ≤ 15 ∧
      get_attendee_price cexPriceConfig none 15 <
        get_attendee_price cexPriceConfig none 5 := by
  decide

/-- C1 amended: `get_attendee_price` is monotonically non-decreasing
in the current time provided the configured price bumps assign
non-decreasing prices to later dates, every bump price is at least the
base price, and the two instants lie on the same side of the event
start `EPOCH` (otherwise crossing `EPOCH` can drop an
attendance-limit-raised price back to the bump price). -/
theorem get_attendee_price_time_mono (c : PriceConfig) (t1 t2 : Int)
    (h12 : t1 ≤ t2)
    (hmono : ∀ x ∈ c.PRICE_BUMPS, ∀ y ∈ c.PRICE_BUMPS,
      x.1 ≤ y.1 → x.2 ≤ y.2)
    (hinit : ∀ x ∈ c.PRICE_BUMPS, c.INITIAL_ATTENDEE ≤ x.2)
    (hepoch : t1 < c.EPOCH ↔ t2 < c.EPOCH) :
    get_attendee_price c none t1 ≤ get_attendee_price c none t2 := by
  have hperm := List.perm_insertionSort pairLe c.PRICE_BUMPS
  have hsorted := List.sorted_insertionSort pairLe c.PRICE_BUMPS
  have hpw : (sortPairs c.PRICE_BUMPS).Pairwise (fun x y => x.2 ≤ y.2) := by
    refine List.Pairwise.imp_of_mem ?_ hsorted
    intro a b ha hb hr
    have hab : a.1 ≤ b.1 := by
      rcases hr with h | ⟨h, _⟩
      · exact le_of_lt h
      · exact le_of_eq h
    exact hmono a (hperm.mem_iff.mp ha) b (hperm.mem_iff.mp hb) hab
  have hall : ∀ x ∈ sortPairs c.PRICE_BUMPS, c.INITIAL_ATTENDEE ≤ x.2 :=
    fun x hx => hinit x (hperm.mem_iff.mp hx)
  have hb := foldl_bumpStep_mono (sortPairs c.PRICE_BUMPS)
    c.INITIAL_ATTENDEE c.INITIAL_ATTENDEE t1 t2 (le_refl _) h12 hall hpw
  have hbs : specBumpedPrice c t1 ≤ specBumpedPrice c t2 := by
    unfold specBumpedPrice lastApplicableBump
    rw [← foldl_bumpStep_eq, ← foldl_bumpStep_eq]
    exact hb
  rw [get_attendee_price_eq, get_attendee_price_eq]
  by_cases hbe : c.PRICE_BUMPS_ENABLED
  · simp only [hbe, if_true]
    by_cases hhard : c.HARDCORE_OPTIMIZATIONS_ENABLED
    · rw [if_neg (fun hc => hc.2.1 hhard), if_neg (fun hc => hc.2.1 hhard)]
      simpa using hbs
    · by_cases hep : t1 < c.EPOCH
      · have hep2 : t2 < c.EPOCH := hepoch.mp hep
        rw [if_pos ⟨by trivial, hhard, hep⟩, if_pos ⟨by trivial, hhard, hep2⟩]
        exact foldl_max_mono _ _ _ (by simpa using hbs)
      · have hep2 : ¬ t2 < c.EPOCH := fun h => hep (hepoch.mpr h)
        rw [if_neg (fun hc => hep hc.2.2), if_neg (fun hc => hep2 hc.2.2)]
        simpa using hbs
  · simp [hbe]

/-- Witness for the amended C1 at a concrete configuration. -/
theorem get_attendee_price_time_mono_witness :
    get_attendee_price
        ⟨40, true, [(0, 50), (10, 60)], [(0, 55)], false, 1000, 0⟩ none 5 ≤
      get_attendee_price
        ⟨40, true, [(0, 50), (10, 60)], [(0, 55)], false, 1000, 0⟩ none 15 :=
  get_attendee_price_time_mono _ 5 15 (by decide) (by decide) (by decide)
    (by decide)

/-! ## Claims C5, C6, C7: the API token controller -/

/-- Everything a token returned by `Root.index` satisfies: it comes
from the table, it belongs to the caller when the caller lacks
`c.ADMIN`, and it is unrevoked when `show_revoked` is off. -/
theorem mem_indexTokens (db : List ApiToken) (admin : AdminAccount)
    (ADMIN : Int) (sr : Bool) (t : ApiToken)
    (ht : t ∈ indexTokens db admin ADMIN sr) :
    t ∈ db
    ∧ (ADMIN ∉ admin.access_ints → t.admin_account_id = admin.id)
    ∧ (sr = false → t.revoked_time = Option.none) := by
  unfold indexTokens at ht
  rw [(List.perm_insertionSort issuedLe _).mem_iff] at ht
  have hq1 : t ∈ (if ADMIN ∈ admin.access_ints then db
      else db.filter (fun t => decide (t.admin_account_id = admin.id)))
      ∧ (sr = false → t.revoked_time = Option.none) := by
    by_cases hsr : sr = true
    · rw [hsr] at ht
      simp only [if_true] at ht
      exact ⟨ht, fun hf => by rw [hf] at hsr; cases hsr⟩
    · have hsr' : sr = false := by
        cases sr
        · rfl
        · exact absurd rfl hsr
      rw [hsr'] at ht
      simp only [Bool.false_eq_true, if_false] at ht
      obtain ⟨h1, h2⟩ := List.mem_filter.mp ht
      exact ⟨h1, fun _ => by simpa using h2⟩
  obtain ⟨ht1, hrev⟩ := hq1
  by_cases hacc : ADMIN ∈ admin.access_ints
  · rw [if_pos hacc] at ht1
    exact ⟨ht1, fun hn => absurd hacc hn, hrev⟩
  · rw [if_neg hacc] at ht1
    obtain ⟨h1, h2⟩ := List.mem_filter.mp ht1
    exact ⟨h1, fun _ => by simpa using h2, hrev⟩

/-- C7: `Root.index` returns only the caller's own tokens when the
caller lacks the `c.ADMIN` access level, and never returns a revoked
token unless `show_revoked` is passed. -/
theorem indexTokens_scope (db : List ApiToken) (admin : AdminAccount)
    (ADMIN : Int) (show_revoked : Bool) :
    (ADMIN ∉ admin.access_ints →
      ∀ t ∈ indexTokens db admin ADMIN show_revoked,
        t.admin_account_id = admin.id)
    ∧ (∀ t ∈ indexTokens db admin ADMIN false,
        t.revoked_time = Option.none) := by
  constructor
  · intro hacc t ht
    exact (mem_indexTokens db admin ADMIN show_revoked t ht).2.1 hacc
  · intro t ht
    exact (mem_indexTokens db admin ADMIN false t ht).2.2 rfl

/-- Witness for C7 at a concrete table and caller. -/
theorem indexTokens_scope_witness :
    (⟨1, 2, 0, Option.none⟩ : ApiToken).admin_account_id =
      (⟨2, []⟩ : AdminAccount).id :=
  (indexTokens_scope [⟨1, 2, 0, Option.none⟩] ⟨2, []⟩ 9 false).1
    (by decide) ⟨1, 2, 0, Option.none⟩ (by decide)

/-- C5: on a POST, `Root.create_api_token` with a failing validation
returns that non-empty message and leaves the token table unchanged;
with a passing validation it appends the new token and returns its
identifier. -/
theorem create_api_token_validation (account_id : Nat) (tok : ApiToken)
    (check : ApiToken → String) (db : List ApiToken) :
    (check { tok with admin_account_id := account_id } ≠ "" →
      create_api_token "POST" account_id tok check db =
        (.error (check { tok with admin_account_id := account_id }), db))
    ∧ (check { tok with admin_account_id := account_id } = "" →
      create_api_token "POST" account_id tok check db =
        (.result tok.id,
          db ++ [{ tok with admin_account_id := account_id }])) := by
  unfold create_api_token
  rw [if_pos rfl]
  constructor
  · intro hne
    rw [if_neg hne]
  · intro heq
    rw [if_pos heq]

/-- Witness for C5: a concrete failing validation and a concrete
passing one. -/
theorem create_api_token_validation_witness :
    create_api_token "POST" 7 ⟨1, 0, 0, Option.none⟩
        (fun t => if t.admin_account_id = 7 then "" else "no access") [] =
      (.result 1, [⟨1, 7, 0, Option.none⟩])
    ∧ create_api_token "POST" 8 ⟨1, 0, 0, Option.none⟩
        (fun t => if t.admin_account_id = 7 then "" else "no access") [] =
      (.error "no access", []) :=
  ⟨(create_api_token_validation 7 ⟨1, 0, 0, Option.none⟩
      (fun t => if t.admin_account_id = 7 then "" else "no access") []).2
      (by decide),
   (create_api_token_validation 8 ⟨1, 0, 0, Option.none⟩
      (fun t => if t.admin_account_id = 7 then "" else "no access") []).1
      (by decide)⟩

/-- C6: a successful POST revocation keeps the token record (same
table size), stamps every record with that id with the revocation
time, and any later default `index` listing excludes it. -/
theorem revoke_api_token_spec (i : Nat) (now : Int) (db : List ApiToken)
    (tok : ApiToken) (htok : tok ∈ db) (hid : tok.id = i) :
    (revoke_api_token "POST" (some i) now db).1 =
        RevokeResult.redirect_success
    ∧ ((revoke_api_token "POST" (some i) now db).2).length = db.length
    ∧ (∃ t ∈ (revoke_api_token "POST" (some i) now db).2,
        t.id = i ∧ t.revoked_time = some now)
    ∧ (∀ t ∈ (revoke_api_token "POST" (some i) now db).2,
        t.id = i → t.revoked_time = some now)
    ∧ (∀ (admin : AdminAccount) (ADMIN : Int),
        ∀ t ∈ indexTokens (revoke_api_token "POST" (some i) now db).2
            admin ADMIN false,
          t.id ≠ i) := by
  unfold revoke_api_token
  dsimp only
  rw [if_pos rfl]
  cases hf : db.find? (fun t => decide (t.id = i)) with
  | none =>
    have := List.find?_eq_none.mp hf tok htok
    rw [hid] at this
    simp at this
  | some u =>
    dsimp only
    have hmap : ∀ t ∈ db.map (fun t =>
        if t.id = i then { t with revoked_time := some now } else t),
        t.id = i → t.revoked_time = some now := by
      intro t ht hti
      obtain ⟨s, hs, hst⟩ := List.mem_map.mp ht
      by_cases hsi : s.id = i
      · rw [if_pos hsi] at hst
        rw [← hst]
      · rw [if_neg hsi] at hst
        rw [← hst] at hti
        exact absurd hti hsi
    refine ⟨rfl, List.length_map db _, ?_, hmap, ?_⟩
    · refine ⟨{ tok with revoked_time := some now }, ?_, hid, rfl⟩
      have := List.mem_map_of_mem
        (fun t => if t.id = i then { t with revoked_time := some now } else t)
        htok
      dsimp only at this
      rw [if_pos hid] at this
      exact this
    · intro admin ADMIN t ht
      obtain ⟨htm, _, hrev⟩ := mem_indexTokens _ admin ADMIN false t ht
      intro hti
      have := hmap t htm hti
      rw [this] at hrev
      exact Option.some_ne_none now (hrev rfl)

/-- Witness for C6 at a concrete table. -/
theorem revoke_api_token_spec_witness :
    (revoke_api_token "POST" (some 1) 50 [⟨1, 2, 5, Option.none⟩]).1 =
        RevokeResult.redirect_success
    ∧ ∀ t ∈ indexTokens
          (revoke_api_token "POST" (some 1) 50 [⟨1, 2, 5, Option.none⟩]).2
          ⟨2, []⟩ 9 false,
        t.id ≠ 1 :=
  ⟨(revoke_api_token_spec 1 50 [⟨1, 2, 5, Option.none⟩]
      ⟨1, 2, 5, Option.none⟩ (by decide) rfl).1,
   (revoke_api_token_spec 1 50 [⟨1, 2, 5, Option.none⟩]
      ⟨1, 2, 5, Option.none⟩ (by decide) rfl).2.2.2.2 ⟨2, []⟩ 9⟩

/-! ## Claim C4: `make_dates` parsing formats -/

/-- C4: a non-empty `[dates]` value containing a space parses as
date-plus-hour and yields a datetime at exactly that hour (minute 0);
a value with no hour component yields 23:59 of the parsed day; both
are localized to the event timezone. -/
theorem make_date_val_formats (tz val : String) (hval : val ≠ "") :
    (val.data.contains ' ' = true →
      ∀ dtv, make_date_val tz val = .ok (some dtv) →
        dtv.tz = tz ∧ dtv.naive.minute = 0 ∧
        ∃ dp hp, splitCh ' ' val.data = [dp, hp] ∧
          strptimeDatePart dp =
            some (dtv.naive.year, dtv.naive.month, dtv.naive.day) ∧
          parseZeroHi 23 hp = some (dtv.naive.hour))
    ∧ (val.data.contains ' ' = false →
      ∀ dtv, make_date_val tz val = .ok (some dtv) →
        dtv.tz = tz ∧ dtv.naive.hour = 23 ∧ dtv.naive.minute = 59 ∧
        strptimeDatePart val.data =
          some (dtv.naive.year, dtv.naive.month, dtv.naive.day)) := by
  unfold make_date_val
  rw [if_neg hval]
  constructor
  · intro hc dtv h
    rw [if_pos hc] at h
    unfold strptime_Ymd_H at h
    cases hsp : splitCh ' ' val.data with
    | nil => exact absurd hsp (splitCh_ne_nil ' ' val.data)
    | cons dp rest =>
      rw [hsp] at h
      cases rest with
      | nil => dsimp only at h; cases h
      | cons hp rest2 =>
        cases rest2 with
        | nil =>
          dsimp only at h
          cases hdp : strptimeDatePart dp with
          | none => rw [hdp] at h; dsimp only at h; cases h
          | some ymd =>
            obtain ⟨y, m, d⟩ := ymd
            rw [hdp] at h
            cases hh : parseZeroHi 23 hp with
            | none => rw [hh] at h; dsimp only at h; cases h
            | some hhv =>
              rw [hh] at h
              dsimp only at h
              simp only [Except.ok.injEq, Option.some.injEq] at h
              subst h
              exact ⟨rfl, rfl, dp, hp, rfl, hdp, hh⟩
        | cons z rest3 => dsimp only at h; cases h
  · intro hc dtv h
    rw [if_neg (by rw [hc]; simp)] at h
    have hnosp : ' ' ∉ val.data := by
      intro hm
      have hc2 : List.elem ' ' val.data = false := hc
      rw [List.elem_iff.mpr hm] at hc2
      cases hc2
    have hdata : (val ++ " 23:59").data = val.data ++ ' ' :: "23:59".data := by
      rw [String.data_append]
    have hsplit : splitCh ' ' (val ++ " 23:59").data =
        [val.data, "23:59".data] := by
      rw [hdata, splitCh_append, splitCh_no_sep ' ' val.data hnosp]
      rfl
    unfold strptime_Ymd_HM at h
    rw [hsplit] at h
    dsimp only at h
    rw [show splitCh ':' ("23:59".data) = ["23".data, "59".data]
        from by decide] at h
    dsimp only at h
    cases hdp : strptimeDatePart val.data with
    | none => rw [hdp] at h; dsimp only at h; cases h
    | some ymd =>
      obtain ⟨y, m, d⟩ := ymd
      rw [hdp, show parseZeroHi 23 ("23".data) = some 23 from by decide,
        show parseZeroHi 59 ("59".data) = some 59 from by decide] at h
      dsimp only at h
      simp only [Except.ok.injEq, Option.some.injEq] at h
      subst h
      exact ⟨rfl, rfl, rfl, rfl⟩

/-- Witness for C4: both formats at concrete values. -/
theorem make_date_val_formats_witness :
    ((⟨⟨2026, 3, 4, 9, 0⟩, "America/New_York"⟩ : TZDateTime).tz =
        "America/New_York"
      ∧ (⟨⟨2026, 3, 4, 9, 0⟩, "America/New_York"⟩ : TZDateTime).naive.minute
          = 0)
    ∧ ((⟨⟨2026, 3, 4, 23, 59⟩, "America/New_York"⟩ : TZDateTime).naive.hour
          = 23
      ∧ (⟨⟨2026, 3, 4, 23, 59⟩, "America/New_York"⟩
          : TZDateTime).naive.minute = 59) :=
  ⟨⟨((make_date_val_formats "America/New_York" "2026-03-04 9"
        (by decide)).1 (by decide) _ (by decide)).1,
    ((make_date_val_formats "America/New_York" "2026-03-04 9"
        (by decide)).1 (by decide) _ (by decide)).2.1⟩,
   ⟨((make_date_val_formats "America/New_York" "2026-03-04"
        (by decide)).2 (by decide) _ (by decide)).2.1,
    ((make_date_val_formats "America/New_York" "2026-03-04"
        (by decide)).2 (by decide) _ (by decide)).2.2.1⟩⟩

/-! ## Claim C8: enum value derivation -/

theorem hexDigitVal_le (ch : Char) (d : Nat)
    (h : hexDigitVal ch = some d) : d ≤ 15 := by
  unfold hexDigitVal at h
  cases hf : hexDigits.find? (fun p => p.1 = ch) with
  | none => rw [hf] at h; cases h
  | some p =>
    rw [hf] at h
    have hm := List.mem_of_find?_eq_some hf
    have hall : ∀ q ∈ hexDigits, q.2 ≤ 15 := by decide
    have hd : p.2 = d := Option.some.inj h
    rw [← hd]
    exact hall p hm

theorem hexFold_lt :
    ∀ (l : List Char) (a v : Nat),
      List.foldlM (fun a ch => (hexDigitVal ch).map (fun x => a * 16 + x))
        a l = some v →
      v < (a + 1) * 16 ^ l.length := by
  intro l
  induction l with
  | nil =>
    intro a v h
    have : a = v := Option.some.inj h
    simp [← this]
  | cons ch rest ih =>
    intro a v h
    rw [List.foldlM_cons] at h
    cases hx : hexDigitVal ch with
    | none => rw [hx] at h; cases h
    | some d =>
      rw [hx] at h
      have hd := hexDigitVal_le ch d hx
      have := ih (a * 16 + d) v h
      have hstep : (a * 16 + d + 1) * 16 ^ rest.length ≤
          (a + 1) * 16 ^ (ch :: rest).length := by
        rw [List.length_cons, pow_succ]
        have h1 : a * 16 + d + 1 ≤ (a + 1) * 16 := by omega
        calc (a * 16 + d + 1) * 16 ^ rest.length
            ≤ (a + 1) * 16 * 16 ^ rest.length :=
              Nat.mul_le_mul_right _ h1
          _ = (a + 1) * (16 ^ rest.length * 16) := by ring
      exact lt_of_lt_of_le this hstep

theorem hexToNat_lt (l : List Char) (v : Nat) (h : hexToNat l = some v) :
    v < 16 ^ l.length := by
  unfold hexToNat at h
  by_cases hl : l = []
  · rw [if_pos hl] at h; cases h
  · rw [if_neg hl] at h
    have := hexFold_lt l 0 v h
    simpa using this

/-- C8: `create_enum_val` is a pure function of the uppercased name —
equal (hence stable across calls and reloads) for names differing only
in case — and its value is the first seven hex digits of the digest,
so it is always below `2 ^ 28`. -/
theorem create_enum_val_stable (sha512hex : String → String)
    (n1 n2 : String) (hcase : toUpperU n1 = toUpperU n2) :
    create_enum_val sha512hex n1 = create_enum_val sha512hex n2
    ∧ ∀ v, create_enum_val sha512hex n1 = some v → v < 2 ^ 28 := by
  constructor
  · unfold create_enum_val
    rw [hcase]
  · intro v hv
    unfold create_enum_val at hv
    have hlt := hexToNat_lt _ v hv
    have hlen : ((sha512hex (toUpperU n1)).data.take 7).length ≤ 7 := by
      rw [List.length_take]
      exact min_le_left _ _
    calc v < 16 ^ ((sha512hex (toUpperU n1)).data.take 7).length := hlt
      _ ≤ 16 ^ 7 := Nat.pow_le_pow_right (by omega) hlen
      _ = 2 ^ 28 := by norm_num

/-- Witness for C8 with a concrete digest function. -/
theorem create_enum_val_stable_witness :
    create_enum_val (fun _ => "abcdef1234567890") "stripe" =
      create_enum_val (fun _ => "abcdef1234567890") "StRiPe"
    ∧ 180150001 < 2 ^ 28 :=
  ⟨(create_enum_val_stable (fun _ => "abcdef1234567890") "stripe" "StRiPe"
      (by decide)).1,
   (create_enum_val_stable (fun _ => "abcdef1234567890") "stripe" "StRiPe"
      (by decide)).2 180150001 (by decide)⟩

/-! ## Claim C9: the unresolvable-attribute error -/

/-- C9: an attribute that is not an ordinary attribute, matches none
of the fallback patterns, and is absent from both secret stores
resolves to an `AttributeError` whose message names the attribute —
and to nothing else. -/
theorem cget_attr_error (st : ConfigState) (name : String)
    (hb : st.base name = Option.none)
    (h1 : ¬ (firstComp '_' name.data = "BEFORE".data
        ∨ firstComp '_' name.data = "AFTER".data))
    (h2 : ¬ ("HAS_".data.isPrefixOf name.data = true
        ∧ "_ACCESS".data.isSuffixOf name.data = true))
    (h3 : ¬ "_COUNT".data.isSuffixOf name.data = true)
    (h4 : ¬ "_AVAILABLE".data.isSuffixOf name.data = true)
    (hs1 : st.secretAttr name = Option.none)
    (hs2 : st.secretSection (toLowerU name) = Option.none) :
    cget st name = .error (.attrError ("no such attribute " ++ name)) := by
  unfold cget
  rw [cgetFuel_succ, hb]
  dsimp only
  unfold chainStep
  rw [if_neg h1, if_neg h2, if_neg h3, if_neg h4]
  unfold secretArm
  rw [hs1]
  dsimp only
  rw [hs2]

/-- Witness for C9 on the empty state. -/
theorem cget_attr_error_witness :
    cget emptyState "XYZZY" =
      .error (.attrError ("no such attribute " ++ "XYZZY")) :=
  cget_attr_error emptyState "XYZZY" rfl (by decide) (by decide) (by decide)
    (by decide) rfl rfl

/-! ## Claim C10: the BEFORE_/AFTER_ date fallback -/

theorem cget_before_raw (st : ConfigState) (X : String)
    (hb : st.base ("BEFORE_" ++ X) = Option.none) :
    cget st ("BEFORE_" ++ X) =
      match cgetFuel st (X.length + 7) X with
      | .error e => .error e
      | .ok dv =>
        if truthy dv = false then .ok (.bool false)
        else
          match dv with
          | .date d => .ok (.bool (decide (st.localizedNow < d)))
          | _ => .error .typeError := by
  have hdB : ("BEFORE_" ++ X).data = "BEFORE".data ++ '_' :: X.data := by
    rw [String.data_append]
    rfl
  unfold cget
  rw [cgetFuel_succ, hb]
  dsimp only
  unfold chainStep
  rw [hdB, firstComp_append]
  rw [if_pos (Or.inl (by decide : firstComp '_' ("BEFORE".data)
    = "BEFORE".data))]
  unfold beforeAfterArm
  rw [hdB, splitOnceTail_append '_' ("BEFORE".data) X.data (by decide)]
  have hpf : "BEFORE_".data.isPrefixOf ("BEFORE".data ++ '_' :: X.data)
      = true :=
    List.isPrefixOf_iff_prefix.mpr ⟨X.data, rfl⟩
  simp only [hpf, if_true]
  rfl

theorem cget_after_raw (st : ConfigState) (X : String)
    (hb : st.base ("AFTER_" ++ X) = Option.none) :
    cget st ("AFTER_" ++ X) =
      match cgetFuel st (X.length + 6) X with
      | .error e => .error e
      | .ok dv =>
        if truthy dv = false then .ok (.bool false)
        else
          match dv with
          | .date d => .ok (.bool (decide (st.localizedNow > d)))
          | _ => .error .typeError := by
  have hdA : ("AFTER_" ++ X).data = "AFTER".data ++ '_' :: X.data := by
    rw [String.data_append]
    rfl
  unfold cget
  rw [cgetFuel_succ, hb]
  dsimp only
  unfold chainStep
  rw [hdA, firstComp_append]
  rw [if_pos (Or.inr (by decide : firstComp '_' ("AFTER".data)
    = "AFTER".data))]
  unfold beforeAfterArm
  rw [hdA, splitOnceTail_append '_' ("AFTER".data) X.data (by decide)]
  have hpf : "BEFORE_".data.isPrefixOf ("AFTER".data ++ '_' :: X.data)
      = false := by
    cases hp : "BEFORE_".data.isPrefixOf ("AFTER".data ++ '_' :: X.data) with
    | false => rfl
    | true =>
      obtain ⟨t, ht⟩ := List.isPrefixOf_iff_prefix.mp hp
      have hh : some 'B' = some 'A' := congrArg List.head? ht
      cases hh
  simp only [hpf]
  rfl

/-- C10: for any name `X`, a falsy date setting makes both
`BEFORE_X` and `AFTER_X` resolve to `False`; at the exact configured
instant both strict comparisons are `False`; and the two can never
resolve to `True` simultaneously. -/
theorem before_after_fallback (st : ConfigState) (X : String)
    (hbB : st.base ("BEFORE_" ++ X) = Option.none)
    (hbA : st.base ("AFTER_" ++ X) = Option.none) :
    (∀ v, cget st X = .ok v → truthy v = false →
      cget st ("BEFORE_" ++ X) = .ok (.bool false)
      ∧ cget st ("AFTER_" ++ X) = .ok (.bool false))
    ∧ (∀ d, cget st X = .ok (.date d) → st.localizedNow = d →
      cget st ("BEFORE_" ++ X) = .ok (.bool false)
      ∧ cget st ("AFTER_" ++ X) = .ok (.bool false))
    ∧ ¬ (cget st ("BEFORE_" ++ X) = .ok (.bool true)
        ∧ cget st ("AFTER_" ++ X) = .ok (.bool true)) := by
  have hB := cget_before_raw st X hbB
  have hA := cget_after_raw st X hbA
  refine ⟨?_, ?_, ?_⟩
  · intro v hx ht
    have hne : cget st X ≠ .error .fuelExhausted := by rw [hx]; simp
    have h7 : cgetFuel st (X.length + 7) X = cget st X :=
      cgetFuel_mono st (X.length + 1) (X.length + 7) X (by omega) hne
    have h6 : cgetFuel st (X.length + 6) X = cget st X :=
      cgetFuel_mono st (X.length + 1) (X.length + 6) X (by omega) hne
    rw [hB, h7, hx]
    rw [hA, h6, hx]
    dsimp only
    rw [if_pos ht, if_pos ht]
    exact ⟨rfl, rfl⟩
  · intro d hx hnow
    have hne : cget st X ≠ .error .fuelExhausted := by rw [hx]; simp
    have h7 : cgetFuel st (X.length + 7) X = cget st X :=
      cgetFuel_mono st (X.length + 1) (X.length + 7) X (by omega) hne
    have h6 : cgetFuel st (X.length + 6) X = cget st X :=
      cgetFuel_mono st (X.length + 1) (X.length + 6) X (by omega) hne
    rw [hB, h7, hx]
    rw [hA, h6, hx]
    dsimp only
    rw [hnow]
    simp [lt_irrefl]
  · intro hboth
    obtain ⟨hbtrue, hatrue⟩ := hboth
    cases h6c : cgetFuel st (X.length + 6) X with
    | error e =>
      rw [hA, h6c] at hatrue
      dsimp only at hatrue
      cases hatrue
    | ok v =>
      have hne6 : cgetFuel st (X.length + 6) X ≠ .error .fuelExhausted := by
        rw [h6c]; simp
      have h76 : cgetFuel st (X.length + 7) X =
          cgetFuel st (X.length + 6) X :=
        cgetFuel_mono st (X.length + 6) (X.length + 7) X (by omega) hne6
      rw [hB, h76, h6c] at hbtrue
      rw [hA, h6c] at hatrue
      dsimp only at hbtrue hatrue
      by_cases ht : truthy v = false
      · rw [if_pos ht] at hbtrue
        simp at hbtrue
      · rw [if_neg ht] at hbtrue hatrue
        cases v with
        | date d =>
          simp only [Except.ok.injEq, Value.bool.injEq,
            decide_eq_true_eq] at hbtrue hatrue
          exact absurd (hbtrue.trans hatrue) (lt_irrefl _)
        | none => exact ht rfl
        | bool b => dsimp only at hbtrue; cases hbtrue
        | int n => dsimp only at hbtrue; cases hbtrue
        | str s => dsimp only at hbtrue; cases hbtrue

/-- Witness for C10: a deadline equal to the current instant. -/
theorem before_after_fallback_witness :
    cget demoState ("BEFORE_" ++ "DEADLINE") = .ok (.bool false)
    ∧ cget demoState ("AFTER_" ++ "DEADLINE") = .ok (.bool false) :=
  (before_after_fallback demoState "DEADLINE" (by decide) (by decide)).2.1
    100 (by decide) rfl

/-! ## Claim C3: the `_AVAILABLE` fallback -/

/-- C3: for a name routed to the `_AVAILABLE` arm of the fallback:
no `<X>_STOCK` setting means available; a stock with an undefined
`<X>_COUNT` means unavailable; otherwise availability is the strict
comparison of count below stock. -/
theorem cget_available (st : ConfigState) (name : String)
    (hb : st.base name = Option.none)
    (h1 : ¬ (firstComp '_' name.data = "BEFORE".data
        ∨ firstComp '_' name.data = "AFTER".data))
    (h2 : ¬ ("HAS_".data.isPrefixOf name.data = true
        ∧ "_ACCESS".data.isSuffixOf name.data = true))
    (h3 : ¬ "_COUNT".data.isSuffixOf name.data = true)
    (h4 : "_AVAILABLE".data.isSuffixOf name.data = true) :
    (getattrDefault
        (cget st (⟨rsplitInit '_' name.data⟩ ++ "_STOCK")) =
          .ok Value.none →
      cget st name = .ok (.bool true))
    ∧ (∀ vs,
        getattrDefault
          (cget st (⟨rsplitInit '_' name.data⟩ ++ "_STOCK")) = .ok vs →
        vs ≠ Value.none →
        getattrDefault
          (cget st (⟨rsplitInit '_' name.data⟩ ++ "_COUNT")) =
            .ok Value.none →
        cget st name = .ok (.bool false))
    ∧ (∀ vs vc (sn cn : Int),
        getattrDefault
          (cget st (⟨rsplitInit '_' name.data⟩ ++ "_STOCK")) = .ok vs →
        vs ≠ Value.none →
        getattrDefault
          (cget st (⟨rsplitInit '_' name.data⟩ ++ "_COUNT")) = .ok vc →
        vc ≠ Value.none →
        toIntV vc = .ok cn →
        toIntV vs = .ok sn →
        cget st name = .ok (.bool (decide (cn < sn)))) := by
  obtain ⟨pre, hpre⟩ := List.isSuffixOf_iff_suffix.mp h4
  have hpre2 : pre ++ '_' :: "AVAILABLE".data = name.data := hpre
  have hsplit : rsplitInit '_' name.data = pre := by
    rw [← hpre2]
    exact rsplitInit_append '_' pre ("AVAILABLE".data) (by decide)
  have hlen : name.length = pre.length + 10 := by
    have hc := congrArg List.length hpre2
    have ha : ("AVAILABLE".data).length = 9 := rfl
    simp only [List.length_append, List.length_cons, ha] at hc
    have hnl : name.length = name.data.length := rfl
    omega
  have hlenS : (String.mk pre ++ "_STOCK").length = pre.length + 6 := by
    show (pre ++ "_STOCK".data).length = pre.length + 6
    rw [List.length_append]
    rfl
  have hlenC : (String.mk pre ++ "_COUNT").length = pre.length + 6 := by
    show (pre ++ "_COUNT".data).length = pre.length + 6
    rw [List.length_append]
    rfl
  have hred : cget st name =
      availableArm st (cgetFuel st name.length) name := by
    unfold cget
    rw [cgetFuel_succ, hb]
    dsimp only
    unfold chainStep
    rw [if_neg h1, if_neg h2, if_neg h3, if_pos h4]
  refine ⟨?_, ?_, ?_⟩
  · intro hstock
    rw [hsplit] at hstock
    have hneS : cget st (String.mk pre ++ "_STOCK") ≠
        .error .fuelExhausted := by
      intro hfe
      rw [hfe] at hstock
      dsimp only [getattrDefault] at hstock
      exact Except.noConfusion hstock
    have hfS : cgetFuel st name.length (String.mk pre ++ "_STOCK") =
        cget st (String.mk pre ++ "_STOCK") :=
      cgetFuel_mono st ((String.mk pre ++ "_STOCK").length + 1)
        name.length _ (by omega) hneS
    rw [hred]
    unfold availableArm
    rw [hsplit, hfS, hstock]
    dsimp only
    rw [if_pos rfl]
  · intro vs hstock hvs hcount
    rw [hsplit] at hstock hcount
    have hneS : cget st (String.mk pre ++ "_STOCK") ≠
        .error .fuelExhausted := by
      intro hfe
      rw [hfe] at hstock
      dsimp only [getattrDefault] at hstock
      exact Except.noConfusion hstock
    have hneC : cget st (String.mk pre ++ "_COUNT") ≠
        .error .fuelExhausted := by
      intro hfe
      rw [hfe] at hcount
      dsimp only [getattrDefault] at hcount
      exact Except.noConfusion hcount
    have hfS : cgetFuel st name.length (String.mk pre ++ "_STOCK") =
        cget st (String.mk pre ++ "_STOCK") :=
      cgetFuel_mono st ((String.mk pre ++ "_STOCK").length + 1)
        name.length _ (by omega) hneS
    have hfC : cgetFuel st name.length (String.mk pre ++ "_COUNT") =
        cget st (String.mk pre ++ "_COUNT") :=
      cgetFuel_mono st ((String.mk pre ++ "_COUNT").length + 1)
        name.length _ (by omega) hneC
    rw [hred]
    unfold availableArm
    rw [hsplit, hfS, hstock]
    dsimp only
    rw [if_neg hvs, hfC, hcount]
    dsimp only
    rw [if_pos rfl]
  · intro vs vc sn cn hstock hvs hcount hvc htc hts
    rw [hsplit] at hstock hcount
    have hneS : cget st (String.mk pre ++ "_STOCK") ≠
        .error .fuelExhausted := by
      intro hfe
      rw [hfe] at hstock
      dsimp only [getattrDefault] at hstock
      exact Except.noConfusion hstock
    have hneC : cget st (String.mk pre ++ "_COUNT") ≠
        .error .fuelExhausted := by
      intro hfe
      rw [hfe] at hcount
      dsimp only [getattrDefault] at hcount
      exact Except.noConfusion hcount
    have hfS : cgetFuel st name.length (String.mk pre ++ "_STOCK") =
        cget st (String.mk pre ++ "_STOCK") :=
      cgetFuel_mono st ((String.mk pre ++ "_STOCK").length + 1)
        name.length _ (by omega) hneS
    have hfC : cgetFuel st name.length (String.mk pre ++ "_COUNT") =
        cget st (String.mk pre ++ "_COUNT") :=
      cgetFuel_mono st ((String.mk pre ++ "_COUNT").length + 1)
        name.length _ (by omega) hneC
    rw [hred]
    unfold availableArm
    rw [hsplit, hfS, hstock]
    dsimp only
    rw [if_neg hvs, hfC, hcount]
    dsimp only
    rw [if_neg hvc, htc, hts]

/-- Witness for C3 on the demo state: stock 5, count 3, available. -/
theorem cget_available_witness :
    cget demoState "FOO_AVAILABLE" =
      .ok (.bool (decide ((3 : Int) < (5 : Int)))) :=
  (cget_available demoState "FOO_AVAILABLE" (by decide) (by decide)
      (by decide) (by decide) (by decide)).2.2
    (.int 5) (.int 3) 5 3 (by decide) (by decide) (by decide) (by decide)
    (by decide) (by decide)

end Rams
